import Mathlib

/-!
Verification development for the personal-finance analytics engine
(`anomaly_detection.py`, `budget_recommender.py`, `budget_management.py`).

The Python code is shallowly embedded: transaction records (Python dicts)
become a structure of optional fields (a `none` field models an absent
key), a pandas DataFrame becomes a list of column names plus rows of
(date, cell values), Python floats are idealised as `Rat`, calendar dates
are proleptic-Gregorian ordinals (as in Python's `date.toordinal`), and
the external scikit-learn models (IsolationForest, KMeans) are abstract
function parameters, since the claims under study are about the engine's
control flow and data plumbing, not about the statistical models.
Raising an exception is modelled with `Except` where a claim mentions it;
all other embedded code is total, mirroring code paths that cannot raise.
-/

/-- `anomaly_detection.CATEGORIES`. -/
def CATEGORIES : List String := ["food", "transport", "entertainment", "shopping", "others"]

/-- `budget_management.BUDGET_CATEGORIES`. -/
def BUDGET_CATEGORIES : List String := ["food", "transport", "entertainment", "shopping", "others"]

/-- A Python transaction-record dict.  A `none` field models an absent key;
amounts are idealised as `Rat` (the code only does sums and comparisons). -/
structure Rec where
  amount : Option Rat
  category : Option String
  rtype : Option String
  date : Option String
deriving Repr, DecidableEq

/-- An element of a Python record list: either a dict or some non-dict value
(the code only distinguishes the two via `isinstance(r, dict)`). -/
inductive Entry where
  | nondict : Entry
  | dict (r : Rec) : Entry
deriving Repr, DecidableEq

/- ### Calendar dates (`datetime.date`, `datetime.strptime`) -/

/-- Gregorian leap-year test. -/
def isLeap (y : Nat) : Bool := (y % 4 == 0 && y % 100 != 0) || y % 400 == 0

/-- Number of days in month `m` of year `y` (months are 1-based). -/
def daysInMonth (y m : Nat) : Nat :=
  if m = 2 then (if isLeap y then 29 else 28)
  else if m = 4 ∨ m = 6 ∨ m = 9 ∨ m = 11 then 30
  else 31

/-- Days in year `y` strictly before month `m`. -/
def daysBeforeMonth (y : Nat) : Nat → Nat
  | 0 => 0
  | m + 1 => if m = 0 then 0 else daysBeforeMonth y m + daysInMonth y m

/-- Days strictly before January 1 of year `y` (proleptic Gregorian). -/
def daysBeforeYear (y : Nat) : Nat :=
  365 * (y - 1) + (y - 1) / 4 - (y - 1) / 100 + (y - 1) / 400

/-- Proleptic-Gregorian ordinal of a date, as in Python `date.toordinal`
(0001-01-01 has ordinal 1). -/
def toOrdinal (y m d : Nat) : Nat := daysBeforeYear y + daysBeforeMonth y m + d

/-- `date.weekday()`: Monday = 0 … Sunday = 6. -/
def weekdayOf (ord : Nat) : Nat := (ord + 6) % 7

/-- Split a character list at `-` separators (the field structure of the
`"%Y-%m-%d"` format). -/
def splitDash : List Char → List (List Char)
  | [] => [[]]
  | c :: cs =>
    if c = '-' then [] :: splitDash cs
    else
      match splitDash cs with
      | [] => [[c]]
      | p :: ps => (c :: p) :: ps

/-- Read a run of decimal digits as a number, `none` on any other input. -/
def digitsAux : List Char → Nat → Option Nat
  | [], acc => some acc
  | c :: cs, acc =>
    if 48 ≤ c.toNat ∧ c.toNat ≤ 57 then digitsAux cs (acc * 10 + (c.toNat - 48))
    else none

/-- A nonempty all-digit field, as `strptime` reads `%Y`/`%m`/`%d`. -/
def digitsToNat? : List Char → Option Nat
  | [] => none
  | c :: cs => digitsAux (c :: cs) 0

/-- `datetime.strptime(s, "%Y-%m-%d").date()`, returning the ordinal, or
`none` when parsing fails (wrong shape, non-digits, out-of-range fields). -/
def parseDate (s : String) : Option Nat :=
  match splitDash s.toList with
  | [ys, ms, ds] =>
    match digitsToNat? ys, digitsToNat? ms, digitsToNat? ds with
    | some y, some m, some d =>
      if ys.length ≤ 4 ∧ ms.length ≤ 2 ∧ ds.length ≤ 2 ∧
         1 ≤ y ∧ y ≤ 9999 ∧ 1 ≤ m ∧ m ≤ 12 ∧ 1 ≤ d ∧ d ≤ daysInMonth y m then
        some (toOrdinal y m d)
      else none
    | _, _, _ => none
  | _ => none

/- ### Daily feature tables (`build_daily_features`) -/

/-- A pandas DataFrame indexed by date: column names plus rows of
(date ordinal, cell values aligned with `cols`). -/
structure DF where
  cols : List String
  rows : List (Nat × List Rat)
deriving Repr, DecidableEq

/-- A cleaned expense row after date parsing: amount (missing amount keys
behave as 0 in pandas sums), category, parsed date ordinal. -/
structure CRec where
  amount : Rat
  cat : Option String
  day : Nat
deriving Repr, DecidableEq

/-- The defensive cleaning loop of `build_daily_features` (lines 20–28).
Returns the post-call state of the input list (the loop mutates dict
records in place, filling a missing `type` key with `"expense"`) together
with the `clean_records` list: dict records that have a `date` key, with
`type` defaulted. -/
def buildLoop : List Entry → List Entry × List Rec
  | [] => ([], [])
  | Entry.nondict :: es =>
    let (ps, cs) := buildLoop es
    (Entry.nondict :: ps, cs)
  | Entry.dict r :: es =>
    let r' : Rec := { r with rtype := some (r.rtype.getD "expense") }
    let (ps, cs) := buildLoop es
    (Entry.dict r' :: ps, (if r'.date = none then [] else [r']) ++ cs)

/-- Rows surviving `df[df.type == 'expense']` and date coercion:
expense records whose date parses. -/
def toC (r : Rec) : Option CRec :=
  if r.rtype = some "expense" then
    match r.date with
    | some ds => (parseDate ds).map (fun d => ⟨r.amount.getD 0, r.category, d⟩)
    | none => none
  else none

/-- Cleaned, parsed expense rows of the input. -/
def parsedExpenses (l : List Rec) : List CRec := l.filterMap toC

/-- Insert into an ascending list (used to model pandas' sorted groupby index). -/
def insertAsc (x : Nat) : List Nat → List Nat
  | [] => [x]
  | y :: ys => if x ≤ y then x :: y :: ys else y :: insertAsc x ys

/-- Ascending sort of a list of ordinals. -/
def sortAsc (l : List Nat) : List Nat := l.foldr insertAsc []

/-- Dates that appear as rows of the unstacked (date, category) table:
pandas drops rows whose `category` group key is missing. -/
def rowDays (cs : List CRec) : List Nat :=
  ((cs.filter (fun c => c.cat.isSome)).map (fun c => c.day)).dedup

/-- Per-day, per-category spending sum. -/
def catSum (cat : String) (l : List CRec) : Rat :=
  ((l.filter (fun c => c.cat == some cat)).map (fun c => c.amount)).sum

/-- One row of the daily feature table for date `d`:
`total_spent`, the five fixed category columns, `weekday`, `is_weekend`. -/
def mkRow (cs : List CRec) (d : Nat) : Nat × List Rat :=
  let onDay := cs.filter (fun c => c.day == d)
  let total : Rat := (onDay.map (fun c => c.amount)).sum
  (d, total :: CATEGORIES.map (fun cat => catSum cat onDay) ++
      [(weekdayOf d : Rat), if 5 ≤ weekdayOf d then 1 else 0])

/-- The fixed column order of `build_daily_features` (line 64). -/
def COLS : List String := ["total_spent"] ++ CATEGORIES ++ ["weekday", "is_weekend"]

/-- `build_daily_features(records)` together with the post-call state of the
input record list (the cleaning loop mutates records in place). -/
def buildDailyFeaturesRun (records : List Entry) : DF × List Entry :=
  let (post, cleaned) := buildLoop records
  if cleaned.isEmpty then (⟨[], []⟩, post)
  else
    let cs := parsedExpenses cleaned
    (⟨COLS, (sortAsc (rowDays cs)).map (mkRow cs)⟩, post)

/-- `build_daily_features(records)`: the returned daily feature table. -/
def buildDailyFeatures (records : List Entry) : DF :=
  (buildDailyFeaturesRun records).1

/-- The state of the input record list after `build_daily_features` returns. -/
def recordsAfterBuild (records : List Entry) : List Entry :=
  (buildDailyFeaturesRun records).2

/- ### The anomaly detector (`SpendingAnomalyDetector`) -/

/-- The `SpendingAnomalyDetector` object state: `model` is the fitted
IsolationForest (abstracted to the prediction function it yields once fit
on a table), `daily_features` the table it was trained on. -/
structure SpendingAnomalyDetector where
  model : Option (DF → List Int)
  daily_features : Option DF
deriving Inhabited

/-- A fresh detector (`__init__`). -/
def SpendingAnomalyDetector.init : SpendingAnomalyDetector := ⟨none, none⟩

/-- `train`: fit the forest on `daily_features` and store both.  The
IsolationForest itself is an abstract parameter `forest`: fitting table
↦ scored table ↦ one prediction (−1 anomalous / 1 normal) per row. -/
def SpendingAnomalyDetector.train (forest : DF → DF → List Int)
    (_d : SpendingAnomalyDetector) (features : DF) : SpendingAnomalyDetector :=
  { model := some (forest features), daily_features := some features }

/-- `predict`: raises `ValueError("Model not trained yet")` when no model is
fit; otherwise returns the input table together with the per-row anomaly
flags (`preds == -1`), modelling the returned frame's `anomaly` column. -/
def SpendingAnomalyDetector.predict (d : SpendingAnomalyDetector) (features : DF) :
    Except String (DF × List Bool) :=
  match d.model with
  | none => Except.error "Model not trained yet"
  | some m => Except.ok (features, (m features).map (fun p => p == -1))

/-- The inner `to_date` helper of `is_anomalous`: `strptime` on `r['date']`,
any exception (non-dict, missing key, parse failure) giving `None`. -/
def toDate : Entry → Option Nat
  | Entry.nondict => none
  | Entry.dict r => r.date.bind parseDate

/-- `recent_records` (lines 122–125): history plus the candidate, kept when
the date parses and is at least `today − 30` (the code checks no upper
bound).  Empty when the candidate's own date does not parse. -/
def recentRecords (new_record : Entry) (all_records : List Entry) : List Entry :=
  match toDate new_record with
  | none => []
  | some today =>
    (all_records ++ [new_record]).filter
      (fun r => match toDate r with
        | some d => today - 30 ≤ d
        | none => false)

/-- `records_excl_new_date` (line 128): the training records, window records
whose date differs from the candidate's. -/
def trainRecords (new_record : Entry) (all_records : List Entry) : List Entry :=
  match toDate new_record with
  | none => []
  | some today =>
    (recentRecords new_record all_records).filter (fun r => !(toDate r == some today))

/-- `new_day_records` (line 138): window records dated on the candidate's day. -/
def evalRecords (new_record : Entry) (all_records : List Entry) : List Entry :=
  match toDate new_record with
  | none => []
  | some today =>
    (recentRecords new_record all_records).filter (fun r => toDate r == some today)

/-- Cell value of a row `vs` (aligned with `cols`) at column `c`; 0 when the
column is absent (the `fill_value=0` convention). -/
def cellVal : List String → List Rat → String → Rat
  | [], _, _ => 0
  | c0 :: cols, vs, c => if c0 = c then vs.headD 0 else cellVal cols vs.tail c

/-- `df.reindex(columns=target, fill_value=0)`: keep rows, project the cells
onto the target column list, zero-filling columns the frame lacks. -/
def reindexColumns (df : DF) (target : List String) : DF :=
  ⟨target, df.rows.map (fun row => (row.1, target.map (cellVal df.cols row.2)))⟩

/-- `is_anomalous(new_record, all_records)` (lines 97–148), with the
IsolationForest abstracted as `forest`. -/
def SpendingAnomalyDetector.isAnomalous (forest : DF → DF → List Int)
    (det : SpendingAnomalyDetector) (new_record : Entry) (all_records : List Entry) : Bool :=
  if all_records.isEmpty then false
  else match new_record with
    | Entry.nondict => false
    | Entry.dict _ =>
      match toDate new_record with
      | none => false
      | some _ =>
        let features_excl := buildDailyFeatures (trainRecords new_record all_records)
        if features_excl.rows.isEmpty then false
        else
          let det' := det.train forest features_excl
          let features_new := buildDailyFeatures (evalRecords new_record all_records)
          if features_new.rows.isEmpty then false
          else
            let aligned := reindexColumns features_new ((det'.daily_features.getD ⟨[], []⟩).cols)
            match det'.model with
            | some m => (m aligned).head? == some (-1)
            | none => false

/- ### Monthly aggregation and the budget recommender -/

/-- A fresh per-month spending dict `{c: 0.0 for c in BUDGET_CATEGORIES}`. -/
def zeroSpending : List (String × Rat) := BUDGET_CATEGORIES.map (fun c => (c, 0))

/-- `if cat in monthly_data[month]: monthly_data[month][cat] += float(amt)`:
add the record's amount to the spending entry whose key is the record's
category, leaving the dict unchanged when the category is not a key. -/
def updSp (r : Rec) (sp : List (String × Rat)) : List (String × Rat) :=
  sp.map (fun p => if some p.1 = r.category then (p.1, p.2 + r.amount.getD 0) else p)

/-- One iteration of the `aggregate_monthly_spending` loop over `monthly_data`
(kept as an association list in insertion order, as a Python dict is). -/
def aggStep (st : List (String × List (String × Rat))) (r : Rec) :
    List (String × List (String × Rat)) :=
  match r.date with
  | none => st
  | some ds =>
    if ds.length < 7 then st
    else
      let m := (ds.toList.take 7).asString
      if r.rtype ≠ some "expense" then st
      else
        let st1 := if st.any (fun e => e.1 == m) then st else st ++ [(m, zeroSpending)]
        st1.map (fun e => if e.1 == m then (e.1, updSp r e.2) else e)

/-- Code-point lexicographic order on character lists: the order Python's
`sorted` applies to `"YYYY-MM"` month keys. -/
def charListLe : List Char → List Char → Bool
  | [], _ => true
  | _ :: _, [] => false
  | c :: cs, d :: ds =>
    if c.toNat < d.toNat then true
    else if d.toNat < c.toNat then false
    else charListLe cs ds

/-- String order used to sort month keys. -/
def monthLe (a b : String) : Bool := charListLe a.toList b.toList

/-- Insertion into an ascending month list (string order, as `sorted`). -/
def insertMonth (x : String × List (String × Rat)) :
    List (String × List (String × Rat)) → List (String × List (String × Rat))
  | [] => [x]
  | y :: ys => if monthLe x.1 y.1 then x :: y :: ys else y :: insertMonth x ys

/-- `aggregate_monthly_spending(records)`: fold the loop, then emit months
sorted ascending by month key. -/
def aggregateMonthlySpending (records : List Rec) : List (String × List (String × Rat)) :=
  (records.foldl aggStep []).foldr insertMonth []

/-- `N_CLUSTERS`. -/
def N_CLUSTERS : Nat := 3

/-- `build_feature_matrix(monthly_spending)`: one budget-adherence ratio row
per month, columns in `BUDGET_CATEGORIES` order. -/
def buildFeatureMatrix (budgets : List (String × Rat))
    (monthly_spending : List (String × List (String × Rat))) : List (List Rat) :=
  monthly_spending.map (fun md =>
    BUDGET_CATEGORIES.map (fun cat =>
      let budget_amt := (budgets.lookup cat).getD 1
      if budget_amt ≤ 0 then 1 else ((md.2.lookup cat).getD 0) / budget_amt))

/-- A fitted KMeans model, abstracted to what `recommend_budgets` reads from
it: cluster assignment of a row, and each cluster's center vector. -/
structure KM where
  predictOne : List Rat → Nat
  centers : Nat → List Rat

/-- `fit_clusters(features)`: `None` when there are fewer rows than
`N_CLUSTERS`, otherwise a fitted model (`kmFit` abstracts `KMeans.fit`). -/
def fitClusters (kmFit : List (List Rat) → KM) (features : List (List Rat)) : Option KM :=
  if features.length < N_CLUSTERS then none else some (kmFit features)

/-- Python `round` half-to-even on rationals. -/
def roundHalfEven (x : Rat) : Int :=
  let f := ⌊x⌋
  let frac := x - f
  if frac < 1/2 then f
  else if 1/2 < frac then f + 1
  else if f % 2 = 0 then f else f + 1

/-- `round(x, 2)`. -/
def round2 (x : Rat) : Rat := (roundHalfEven (100 * x) : Rat) / 100

/-- `recommend_budgets(records)` with the global `budgets` map passed
explicitly and `KMeans` abstracted as `kmFit`.  The persistence side
effects (`save_monthly_spending`, `save_recommendations`) write files and
are outside the embedding. -/
def recommendBudgets (kmFit : List (List Rat) → KM) (budgets : List (String × Rat))
    (records : List Rec) : List (String × Rat) :=
  let monthly_spending := aggregateMonthlySpending records
  if monthly_spending.isEmpty then []
  else
    let features := buildFeatureMatrix budgets monthly_spending
    match fitClusters kmFit features with
    | none => budgets
    | some kmeans =>
      let cluster_center := kmeans.centers (kmeans.predictOne (features.getLastD []))
      BUDGET_CATEGORIES.enum.map (fun p =>
        let cat := p.2
        let current_budget := (budgets.lookup cat).getD 0
        let suggested := (cluster_center.getD p.1 0) * current_budget
        let blended := (7 : Rat)/10 * current_budget + (3 : Rat)/10 * suggested
        (cat, round2 (max blended 100)))

/-- `tracker.calculate_spending(records_list)` (budget_management.py lines
60–76): total expense per fixed category, other categories ignored. -/
def calculate_spending (records_list : List Rec) : List (String × Rat) :=
  BUDGET_CATEGORIES.map (fun cat =>
    (cat, ((records_list.filter (fun r =>
      r.rtype == some "expense" && r.category == some cat)).map
        (fun r => r.amount.getD 0)).sum))

/-- Monthly total of category `c` in month `m` for an aggregation result:
the summed spending value stored under key `c` across entries keyed `m`
(months are unique, so this is the single stored total, with 0 default). -/
def mTotal (st : List (String × List (String × Rat))) (m c : String) : Rat :=
  ((st.filter (fun e => e.1 == m)).map (fun e => (e.2.lookup c).getD 0)).sum

/-- The cluster-center vector read by `recommend_budgets` (lines 121–123):
the center of the cluster assigned to the most recent month's ratio row. -/
def chosenCenter (kmFit : List (List Rat) → KM) (budgets : List (String × Rat))
    (records : List Rec) : List Rat :=
  let features := buildFeatureMatrix budgets (aggregateMonthlySpending records)
  (kmFit features).centers ((kmFit features).predictOne (features.getLastD []))

/-- The amount an aggregation step adds to the month-`m`, category-`c`
total when processing record `r` (0 unless `r` is an expense of month `m`
with category exactly the fixed category `c`). -/
def singleContrib (r : Rec) (m c : String) : Rat :=
  match r.date with
  | none => 0
  | some ds =>
    if ds.length < 7 then 0
    else if (ds.toList.take 7).asString = m ∧ r.rtype = some "expense" ∧
            r.category = some c ∧ c ∈ BUDGET_CATEGORIES then
      r.amount.getD 0
    else 0

/-- Invariant of the `monthly_data` state: every spending dict has exactly
the fixed categories as keys, and month keys are unique. -/
def goodState (st : List (String × List (String × Rat))) : Prop :=
  (∀ e ∈ st, e.2.map Prod.fst = BUDGET_CATEGORIES) ∧ (st.map Prod.fst).Nodup

/- ### Structural lemmas about `build_daily_features` -/

theorem buildLoop_fst (records : List Entry) :
    (buildLoop records).1 = records.map (fun e =>
      match e with
      | Entry.nondict => Entry.nondict
      | Entry.dict r => Entry.dict { r with rtype := some (r.rtype.getD "expense") }) := by
  induction records with
  | nil => rfl
  | cons e es ih =>
    cases e with
    | nondict => simpa [buildLoop] using ih
    | dict r => simpa [buildLoop] using ih

theorem buildLoop_snd_mem {records : List Entry} {r' : Rec}
    (h : r' ∈ (buildLoop records).2) :
    ∃ r : Rec, Entry.dict r ∈ records ∧
      r' = { r with rtype := some (r.rtype.getD "expense") } := by
  induction records with
  | nil => simp [buildLoop] at h
  | cons e es ih =>
    cases e with
    | nondict =>
      simp only [buildLoop] at h
      obtain ⟨r, hmem, hr⟩ := ih h
      exact ⟨r, List.mem_cons_of_mem _ hmem, hr⟩
    | dict r0 =>
      simp only [buildLoop] at h
      rcases List.mem_append.1 h with h1 | h2
      · simp at h1
        exact ⟨r0, List.mem_cons_self _ _, h1.2⟩
      · obtain ⟨r, hmem, hr⟩ := ih h2
        exact ⟨r, List.mem_cons_of_mem _ hmem, hr⟩

theorem mem_insertAsc {x y : Nat} {l : List Nat} :
    y ∈ insertAsc x l ↔ y = x ∨ y ∈ l := by
  induction l with
  | nil => simp [insertAsc]
  | cons z zs ih =>
    by_cases h : x ≤ z
    · simp [insertAsc, h]
    · simp [insertAsc, h, ih]
      tauto

theorem mem_sortAsc {y : Nat} {l : List Nat} : y ∈ sortAsc l ↔ y ∈ l := by
  induction l with
  | nil => simp [sortAsc]
  | cons z zs ih =>
    simp only [sortAsc, List.foldr_cons] at *
    rw [mem_insertAsc, ih]
    simp

theorem toC_spec {r : Rec} {c : CRec} (h : toC r = some c) :
    r.rtype = some "expense" ∧ c.cat = r.category ∧
      ∃ ds, r.date = some ds ∧ parseDate ds = some c.day := by
  unfold toC at h
  by_cases he : r.rtype = some "expense"
  · simp only [he, if_pos] at h
    cases hd : r.date with
    | none => simp [hd] at h
    | some ds =>
      simp only [hd] at h
      cases hp : parseDate ds with
      | none => simp [hp] at h
      | some d =>
        simp only [hp, Option.map_some'] at h
        obtain rfl : (⟨r.amount.getD 0, r.category, d⟩ : CRec) = c := Option.some.inj h
        exact ⟨he, rfl, ds, rfl, hp⟩
  · simp [he] at h

/-- Every row date of the daily feature table is the parsed date of some
input record. -/
theorem buildDailyFeatures_row_date {records : List Entry} {row : Nat × List Rat}
    (h : row ∈ (buildDailyFeatures records).rows) :
    ∃ e ∈ records, toDate e = some row.1 := by
  unfold buildDailyFeatures buildDailyFeaturesRun at h
  by_cases hemp : (buildLoop records).2.isEmpty
  · simp [hemp] at h
  · simp only [hemp, Bool.false_eq_true, if_false] at h
    obtain ⟨d, hd, hrow⟩ := List.mem_map.1 h
    have hdays : d ∈ rowDays (parsedExpenses (buildLoop records).2) := mem_sortAsc.1 hd
    unfold rowDays at hdays
    obtain ⟨c, hc, hcd⟩ := List.mem_map.1 (List.dedup_subset _ hdays)
    have hc' : c ∈ parsedExpenses (buildLoop records).2 := List.mem_of_mem_filter hc
    obtain ⟨r, hrm, hrc⟩ := List.mem_filterMap.1 hc'
    obtain ⟨r0, hr0, hr0eq⟩ := buildLoop_snd_mem hrm
    obtain ⟨-, -, ds, hds, hparse⟩ := toC_spec hrc
    refine ⟨Entry.dict r0, hr0, ?_⟩
    have hdate : r0.date = some ds := by
      have : ({ r0 with rtype := some (r0.rtype.getD "expense") } : Rec).date = r0.date := rfl
      rw [hr0eq] at hds; rw [← this, hds]
    have hfst : row.1 = d := by rw [← hrow]; simp [mkRow]
    simp only [toDate, hdate, Option.some_bind]
    rw [hparse, hfst, ← hcd]

/-- A nonempty daily feature table always carries the full fixed column
schema, in order. -/
theorem buildDailyFeatures_cols {records : List Entry}
    (h : (buildDailyFeatures records).rows ≠ []) :
    (buildDailyFeatures records).cols = COLS := by
  unfold buildDailyFeatures buildDailyFeaturesRun at *
  by_cases hemp : (buildLoop records).2.isEmpty
  · simp [hemp] at h
  · simp [hemp]

/-- Every row of the daily feature table is `mkRow` of the cleaned parsed
expenses at some date. -/
theorem buildDailyFeatures_row_shape {records : List Entry} {row : Nat × List Rat}
    (h : row ∈ (buildDailyFeatures records).rows) :
    ∃ d, row = mkRow (parsedExpenses (buildLoop records).2) d := by
  unfold buildDailyFeatures buildDailyFeaturesRun at h
  by_cases hemp : (buildLoop records).2.isEmpty
  · simp [hemp] at h
  · simp only [hemp, Bool.false_eq_true, if_false] at h
    obtain ⟨d, _, hrow⟩ := List.mem_map.1 h
    exact ⟨d, hrow.symm⟩

/-- The category of every cleaned parsed expense row is the category of
some dict record of the input. -/
theorem parsedExpenses_cat {records : List Entry} {c : CRec}
    (h : c ∈ parsedExpenses (buildLoop records).2) :
    ∃ r : Rec, Entry.dict r ∈ records ∧ c.cat = r.category := by
  obtain ⟨r, hrm, hrc⟩ := List.mem_filterMap.1 h
  obtain ⟨r0, hr0, hr0eq⟩ := buildLoop_snd_mem hrm
  obtain ⟨-, hcat, -⟩ := toC_spec hrc
  refine ⟨r0, hr0, ?_⟩
  rw [hcat, hr0eq]

theorem mkRow_length (cs : List CRec) (d : Nat) :
    (mkRow cs d).2.length = COLS.length := by
  simp [mkRow, COLS, CATEGORIES]

theorem COLS_nodup : COLS.Nodup := by decide

/-- Projecting a row onto its own (duplicate-free) column list is the
identity. -/
theorem cellVal_map_self (cols : List String) (vs : List Rat)
    (hnd : cols.Nodup) (hlen : vs.length = cols.length) :
    cols.map (cellVal cols vs) = vs := by
  induction cols generalizing vs with
  | nil => simpa using (List.length_eq_zero.1 hlen)
  | cons c cs ih =>
    cases vs with
    | nil => simp at hlen
    | cons v vs' =>
      have hnd' : cs.Nodup := hnd.of_cons
      have hc : c ∉ cs := by
        intro hmem; exact (List.nodup_cons.1 hnd).1 hmem
      have hlen' : vs'.length = cs.length := by simpa using hlen
      simp only [List.map_cons]
      have h1 : cellVal (c :: cs) (v :: vs') c = v := by simp [cellVal]
      rw [h1]
      congr 1
      calc cs.map (cellVal (c :: cs) (v :: vs'))
            = cs.map (cellVal cs vs') := by
              apply List.map_congr_left
              intro x hx
              have hne : ¬ c = x := fun hcx => hc (hcx ▸ hx)
              simp [cellVal, hne]
          _ = vs' := ih vs' hnd' hlen'

theorem catSum_cons (cat : String) (c : CRec) (l : List CRec) :
    catSum cat (c :: l) = (if c.cat = some cat then c.amount else 0) + catSum cat l := by
  by_cases h : c.cat = some cat <;>
    simp [catSum, List.filter_cons, h]

/-- When every row's category lies in the fixed vocabulary, the five fixed
per-category sums partition the total. -/
theorem catSum_partition (l : List CRec)
    (H : ∀ c ∈ l, ∃ s, c.cat = some s ∧ s ∈ CATEGORIES) :
    (l.map (fun c => c.amount)).sum =
      catSum "food" l + catSum "transport" l + catSum "entertainment" l +
        catSum "shopping" l + catSum "others" l := by
  induction l with
  | nil => simp [catSum]
  | cons c l ih =>
    obtain ⟨s, hs, hsm⟩ := H c (List.mem_cons_self _ _)
    have ih' := ih (fun x hx => H x (List.mem_cons_of_mem _ hx))
    simp only [List.map_cons, List.sum_cons, catSum_cons, ih', hs]
    simp only [CATEGORIES, List.mem_cons, List.mem_singleton, List.not_mem_nil, or_false] at hsm
    rcases hsm with rfl | rfl | rfl | rfl | rfl <;> simp <;> ring

/- ### Claim theorems: anomaly-detection engine -/

/-- **C1** (confirmed): every record used to build the training feature
table of `is_anomalous` has a date different from the candidate's date, and
hence so does every row of that table — the candidate's own day never
contributes to the model that judges it, even when records of that day
appear in the supplied history. -/
theorem C1_no_leakage (new_record : Entry) (all_records : List Entry) (today : Nat)
    (h : toDate new_record = some today) :
    (∀ e ∈ trainRecords new_record all_records, toDate e ≠ some today) ∧
    (∀ row ∈ (buildDailyFeatures (trainRecords new_record all_records)).rows,
      row.1 ≠ today) := by
  have hrec : ∀ e ∈ trainRecords new_record all_records, toDate e ≠ some today := by
    intro e he
    unfold trainRecords at he
    rw [h] at he
    have hf := List.of_mem_filter he
    simpa using hf
  refine ⟨hrec, ?_⟩
  intro row hrow heq
  obtain ⟨e, he, hed⟩ := buildDailyFeatures_row_date hrow
  exact hrec e he (heq ▸ hed)

/-- Witness for C1 at a concrete candidate (2024-03-01) whose history
contains another record of the very same day. -/
theorem C1_no_leakage_witness :
    (∀ e ∈ trainRecords (Entry.dict ⟨some 500, some "food", some "expense", some "2024-03-01"⟩)
        [Entry.dict ⟨some 20, some "food", some "expense", some "2024-02-20"⟩,
         Entry.dict ⟨some 999, some "food", some "expense", some "2024-03-01"⟩],
      toDate e ≠ some 738946) ∧
    (∀ row ∈ (buildDailyFeatures
        (trainRecords (Entry.dict ⟨some 500, some "food", some "expense", some "2024-03-01"⟩)
          [Entry.dict ⟨some 20, some "food", some "expense", some "2024-02-20"⟩,
           Entry.dict ⟨some 999, some "food", some "expense", some "2024-03-01"⟩])).rows,
      row.1 ≠ 738946) :=
  C1_no_leakage _ _ _ (by decide)

/-- **C3** fails as stated: the window filter checks only the lower bound
`today − 30 ≤ d`, so a history record dated *after* the candidate's date is
included in the trailing window. -/
theorem C3_counterexample :
    Entry.dict ⟨some 30, some "food", some "expense", some "2024-03-05"⟩ ∈
      recentRecords (Entry.dict ⟨some 500, some "food", some "expense", some "2024-03-01"⟩)
        [Entry.dict ⟨some 30, some "food", some "expense", some "2024-03-05"⟩] ∧
    toDate (Entry.dict ⟨some 500, some "food", some "expense", some "2024-03-01"⟩) =
      some 738946 ∧
    toDate (Entry.dict ⟨some 30, some "food", some "expense", some "2024-03-05"⟩) =
      some 738950 ∧
    738946 < 738950 := by decide

/-- **C3** (amended): the trailing window contains exactly those records of
history ∪ {candidate} whose parseable date is at least the candidate's date
minus 30 days; the code applies no upper bound, so records dated after the
candidate's date are also included. -/
theorem C3_window_amended (new_record : Entry) (all_records : List Entry) (today : Nat)
    (h : toDate new_record = some today) (r : Entry) :
    r ∈ recentRecords new_record all_records ↔
      r ∈ all_records ++ [new_record] ∧ ∃ d, toDate r = some d ∧ today - 30 ≤ d := by
  unfold recentRecords
  rw [h, List.mem_filter]
  constructor
  · rintro ⟨hmem, hcond⟩
    refine ⟨hmem, ?_⟩
    cases htd : toDate r with
    | none => rw [htd] at hcond; simp at hcond
    | some d =>
      rw [htd] at hcond
      exact ⟨d, rfl, by simpa using hcond⟩
  · rintro ⟨hmem, d, htd, hle⟩
    refine ⟨hmem, ?_⟩
    rw [htd]
    simpa using hle

/-- Witness for the amended C3: the future-dated record is in the window. -/
theorem C3_window_amended_witness :
    Entry.dict ⟨some 30, some "food", some "expense", some "2024-03-05"⟩ ∈
      recentRecords (Entry.dict ⟨some 500, some "food", some "expense", some "2024-03-01"⟩)
        [Entry.dict ⟨some 30, some "food", some "expense", some "2024-03-05"⟩,
         Entry.dict ⟨some 20, some "food", some "expense", some "2024-02-20"⟩] :=
  (C3_window_amended _ _ 738946 (by decide) _).mpr ⟨by decide, 738950, by decide, by decide⟩

/-- **C4** (confirmed): `is_anomalous` returns `false` whenever the history
is empty, the candidate is not a dict, the candidate's date fails to parse,
the training table (window minus the candidate's day) is empty, or the
evaluation table for the candidate's day is empty.  The embedding is total,
mirroring that this path never raises. -/
theorem C4_returns_false (forest : DF → DF → List Int) (det : SpendingAnomalyDetector)
    (new_record : Entry) (all_records : List Entry) :
    (all_records = [] →
      det.isAnomalous forest new_record all_records = false) ∧
    (new_record = Entry.nondict →
      det.isAnomalous forest new_record all_records = false) ∧
    (toDate new_record = none →
      det.isAnomalous forest new_record all_records = false) ∧
    ((buildDailyFeatures (trainRecords new_record all_records)).rows = [] →
      det.isAnomalous forest new_record all_records = false) ∧
    ((buildDailyFeatures (evalRecords new_record all_records)).rows = [] →
      det.isAnomalous forest new_record all_records = false) := by
  refine ⟨?_, ?_, ?_, ?_, ?_⟩
  · intro h
    subst h
    simp [SpendingAnomalyDetector.isAnomalous]
  · intro h
    subst h
    cases he : all_records.isEmpty <;>
      simp [SpendingAnomalyDetector.isAnomalous, he]
  · intro h
    cases new_record with
    | nondict =>
      cases he : all_records.isEmpty <;>
        simp [SpendingAnomalyDetector.isAnomalous, he]
    | dict r =>
      cases he : all_records.isEmpty <;>
        simp [SpendingAnomalyDetector.isAnomalous, he, h]
  · intro h
    cases new_record with
    | nondict =>
      cases he : all_records.isEmpty <;>
        simp [SpendingAnomalyDetector.isAnomalous, he]
    | dict r =>
      cases he : all_records.isEmpty
      · cases htd : toDate (Entry.dict r) with
        | none => simp [SpendingAnomalyDetector.isAnomalous, he, htd]
        | some t => simp [SpendingAnomalyDetector.isAnomalous, he, htd, h]
      · simp [SpendingAnomalyDetector.isAnomalous, he]
  · intro h
    cases new_record with
    | nondict =>
      cases he : all_records.isEmpty <;>
        simp [SpendingAnomalyDetector.isAnomalous, he]
    | dict r =>
      cases he : all_records.isEmpty
      · cases htd : toDate (Entry.dict r) with
        | none => simp [SpendingAnomalyDetector.isAnomalous, he, htd]
        | some t =>
          cases htr : (buildDailyFeatures (trainRecords (Entry.dict r) all_records)).rows.isEmpty
          · simp [SpendingAnomalyDetector.isAnomalous, he, htd, htr, h]
          · simp [SpendingAnomalyDetector.isAnomalous, he, htd, htr]
      · simp [SpendingAnomalyDetector.isAnomalous, he]

/-- Witness exercising all five `false`-returning guards of C4 on concrete
inputs: empty history; non-dict candidate; unparseable candidate date;
empty training table; empty evaluation table (an income-only candidate
day). -/
theorem C4_returns_false_witness :
    (SpendingAnomalyDetector.isAnomalous (fun _ _ => []) SpendingAnomalyDetector.init
      (Entry.dict ⟨some 5, some "food", some "expense", some "2024-03-01"⟩) [] = false) ∧
    (SpendingAnomalyDetector.isAnomalous (fun _ _ => []) SpendingAnomalyDetector.init
      Entry.nondict [Entry.nondict] = false) ∧
    (SpendingAnomalyDetector.isAnomalous (fun _ _ => []) SpendingAnomalyDetector.init
      (Entry.dict ⟨some 5, some "food", some "expense", some "not-a-date"⟩)
      [Entry.nondict] = false) ∧
    (SpendingAnomalyDetector.isAnomalous (fun _ _ => []) SpendingAnomalyDetector.init
      (Entry.dict ⟨some 5, some "food", some "expense", some "2024-03-01"⟩)
      [Entry.nondict] = false) ∧
    (SpendingAnomalyDetector.isAnomalous (fun _ _ => []) SpendingAnomalyDetector.init
      (Entry.dict ⟨some 5, some "food", some "income", some "2024-03-01"⟩)
      [Entry.dict ⟨some 20, some "food", some "expense", some "2024-02-20"⟩] = false) :=
  ⟨(C4_returns_false _ _ _ _).1 rfl,
   (C4_returns_false _ _ _ _).2.1 rfl,
   (C4_returns_false _ _ _ _).2.2.1 (by decide),
   (C4_returns_false _ _ _ _).2.2.2.1 (by decide),
   (C4_returns_false _ _ _ _).2.2.2.2 (by decide)⟩

/-- **C2** fails as stated: `total_spent` sums *all* expense amounts of the
day, while only the five fixed categories get columns, so a record with an
off-vocabulary category (here `"weird"`) is counted in `total_spent` but in
no category column. -/
theorem C2_counterexample :
    (buildDailyFeatures
      [Entry.dict ⟨some 50, some "weird", some "expense", some "2024-01-05"⟩]).rows.length = 1 ∧
    ¬ (∀ row ∈ (buildDailyFeatures
        [Entry.dict ⟨some 50, some "weird", some "expense", some "2024-01-05"⟩]).rows,
      row.2.getD 0 0 =
        row.2.getD 1 0 + row.2.getD 2 0 + row.2.getD 3 0 + row.2.getD 4 0 + row.2.getD 5 0) := by
  have h0 : (buildLoop
      [Entry.dict ⟨some 50, some "weird", some "expense", some "2024-01-05"⟩]).2.isEmpty
      = false := by decide
  have h1 : parsedExpenses (buildLoop
      [Entry.dict ⟨some 50, some "weird", some "expense", some "2024-01-05"⟩]).2
      = [⟨50, some "weird", 738890⟩] := by decide
  have h2 : sortAsc (rowDays [(⟨50, some "weird", 738890⟩ : CRec)]) = [738890] := by decide
  have hrows : (buildDailyFeatures
      [Entry.dict ⟨some 50, some "weird", some "expense", some "2024-01-05"⟩]).rows
      = [mkRow [⟨50, some "weird", 738890⟩] 738890] := by
    simp [buildDailyFeatures, buildDailyFeaturesRun, h0, h1, h2]
  constructor
  · simp [hrows]
  · simp only [hrows]
    norm_num +decide [mkRow, catSum, CATEGORIES, weekdayOf, List.filter_cons, beq_iff_eq]

/-- **C2** (amended): every row of the daily feature table carries the full
fixed column schema (all five category columns present), and whenever every
dict record's category lies in the fixed category set, each row's
`total_spent` equals the sum of its five per-category columns.  (Without
that restriction, off-vocabulary or missing categories are counted in
`total_spent` but in no category column.) -/
theorem C2_total_is_cat_sum (records : List Entry) :
    ((buildDailyFeatures records).rows ≠ [] → (buildDailyFeatures records).cols = COLS) ∧
    (∀ row ∈ (buildDailyFeatures records).rows, row.2.length = COLS.length) ∧
    ((∀ r : Rec, Entry.dict r ∈ records → ∃ c, r.category = some c ∧ c ∈ CATEGORIES) →
      ∀ row ∈ (buildDailyFeatures records).rows,
        row.2.getD 0 0 =
          row.2.getD 1 0 + row.2.getD 2 0 + row.2.getD 3 0 + row.2.getD 4 0 + row.2.getD 5 0) := by
  refine ⟨buildDailyFeatures_cols, ?_, ?_⟩
  · intro row hrow
    obtain ⟨d, rfl⟩ := buildDailyFeatures_row_shape hrow
    exact mkRow_length _ _
  · intro H row hrow
    obtain ⟨d, rfl⟩ := buildDailyFeatures_row_shape hrow
    have Hon : ∀ c ∈ (parsedExpenses (buildLoop records).2).filter (fun c => c.day == d),
        ∃ s, c.cat = some s ∧ s ∈ CATEGORIES := by
      intro c hc
      obtain ⟨r, hr, hcat⟩ := parsedExpenses_cat (List.mem_of_mem_filter hc)
      obtain ⟨s, hs, hsm⟩ := H r hr
      exact ⟨s, by rw [hcat, hs], hsm⟩
    have hpart := catSum_partition _ Hon
    simp only [mkRow, CATEGORIES, List.map_cons, List.map_nil]
    simp only [List.cons_append, List.nil_append, List.getD_cons_zero, List.getD_cons_succ]
    linarith [hpart]

/-- Witness for the amended C2: the spec's own two-day scenario (food 20 +
transport 5 on 2024-01-01, food 100 on 2024-01-02), whose categories all
lie in the fixed set. -/
theorem C2_total_is_cat_sum_witness :
    (∀ r : Rec, Entry.dict r ∈
        [Entry.dict ⟨some 20, some "food", some "expense", some "2024-01-01"⟩,
         Entry.dict ⟨some 5, some "transport", some "expense", some "2024-01-01"⟩,
         Entry.dict ⟨some 100, some "food", some "expense", some "2024-01-02"⟩] →
      ∃ c, r.category = some c ∧ c ∈ CATEGORIES) ∧
    (∀ row ∈ (buildDailyFeatures
        [Entry.dict ⟨some 20, some "food", some "expense", some "2024-01-01"⟩,
         Entry.dict ⟨some 5, some "transport", some "expense", some "2024-01-01"⟩,
         Entry.dict ⟨some 100, some "food", some "expense", some "2024-01-02"⟩]).rows,
      row.2.getD 0 0 =
        row.2.getD 1 0 + row.2.getD 2 0 + row.2.getD 3 0 + row.2.getD 4 0 + row.2.getD 5 0) := by
  have hcats : ∀ r : Rec, Entry.dict r ∈
      [Entry.dict ⟨some 20, some "food", some "expense", some "2024-01-01"⟩,
       Entry.dict ⟨some 5, some "transport", some "expense", some "2024-01-01"⟩,
       Entry.dict ⟨some 100, some "food", some "expense", some "2024-01-02"⟩] →
      ∃ c, r.category = some c ∧ c ∈ CATEGORIES := by
    intro r hr
    simp only [List.mem_cons, List.not_mem_nil, or_false] at hr
    rcases hr with h | h | h <;>
      (injection h with h2; subst h2; exact ⟨_, rfl, by decide⟩)
  exact ⟨hcats, (C2_total_is_cat_sum _).2.2 hcats⟩

theorem catSum_eq_zero {cat : String} {l : List CRec}
    (h : ∀ c ∈ l, c.cat ≠ some cat) : catSum cat l = 0 := by
  unfold catSum
  have : l.filter (fun c => c.cat == some cat) = [] := by
    rw [List.filter_eq_nil_iff]
    intro c hc
    simpa using h c hc
  rw [this]
  simp

theorem reindexColumns_self (df : DF) (hcols : df.cols = COLS)
    (hlen : ∀ row ∈ df.rows, row.2.length = COLS.length) :
    reindexColumns df COLS = df := by
  obtain ⟨cols, rows⟩ := df
  simp only at hcols hlen
  subst hcols
  unfold reindexColumns
  simp only [DF.mk.injEq, true_and]
  have hpt : ∀ row ∈ rows, (row.1, COLS.map (cellVal COLS row.2)) = id row := by
    intro row hrow
    rw [cellVal_map_self COLS row.2 COLS_nodup (hlen row hrow)]
    rfl
  calc rows.map (fun row => (row.1, COLS.map (cellVal COLS row.2)))
      = rows.map id := List.map_congr_left hpt
    _ = rows := List.map_id rows

/-- **C7** (confirmed): before scoring, the evaluation table is reindexed to
the training table's column set and order.  Both tables always carry the
full fixed schema, so the alignment is the identity and scoring can never
see a column-shape mismatch; a category absent from the candidate day's
records scores as zero. -/
theorem C7_column_alignment (new_record : Entry) (all_records : List Entry)
    (htr : (buildDailyFeatures (trainRecords new_record all_records)).rows ≠ [])
    (hev : (buildDailyFeatures (evalRecords new_record all_records)).rows ≠ []) :
    (reindexColumns (buildDailyFeatures (evalRecords new_record all_records))
        (buildDailyFeatures (trainRecords new_record all_records)).cols).cols =
      (buildDailyFeatures (trainRecords new_record all_records)).cols ∧
    reindexColumns (buildDailyFeatures (evalRecords new_record all_records))
        (buildDailyFeatures (trainRecords new_record all_records)).cols =
      buildDailyFeatures (evalRecords new_record all_records) ∧
    (∀ cat ∈ CATEGORIES,
      (∀ r : Rec, Entry.dict r ∈ evalRecords new_record all_records →
        r.category ≠ some cat) →
      ∀ row ∈ (reindexColumns (buildDailyFeatures (evalRecords new_record all_records))
          (buildDailyFeatures (trainRecords new_record all_records)).cols).rows,
        cellVal (buildDailyFeatures (trainRecords new_record all_records)).cols row.2 cat
          = 0) := by
  have hctr := buildDailyFeatures_cols htr
  have hcev := buildDailyFeatures_cols hev
  have hlen : ∀ row ∈ (buildDailyFeatures (evalRecords new_record all_records)).rows,
      row.2.length = COLS.length := by
    intro row hrow
    obtain ⟨d, rfl⟩ := buildDailyFeatures_row_shape hrow
    exact mkRow_length _ _
  have hid : reindexColumns (buildDailyFeatures (evalRecords new_record all_records))
      (buildDailyFeatures (trainRecords new_record all_records)).cols =
      buildDailyFeatures (evalRecords new_record all_records) := by
    rw [hctr]
    exact reindexColumns_self _ hcev hlen
  refine ⟨by rw [hid, hcev, hctr], hid, ?_⟩
  intro cat hcat hnone row hrow
  rw [hid] at hrow
  obtain ⟨d, rfl⟩ := buildDailyFeatures_row_shape hrow
  have hzero : catSum cat ((parsedExpenses
      (buildLoop (evalRecords new_record all_records)).2).filter (fun c => c.day == d)) = 0 := by
    apply catSum_eq_zero
    intro c hc hceq
    obtain ⟨r, hr, hrcat⟩ := parsedExpenses_cat (List.mem_of_mem_filter hc)
    exact hnone r hr (by rw [← hrcat, hceq])
  rw [hctr]
  simp only [CATEGORIES, List.mem_cons, List.mem_singleton, List.not_mem_nil, or_false] at hcat
  rcases hcat with rfl | rfl | rfl | rfl | rfl <;>
    simp_all [mkRow, COLS, CATEGORIES, cellVal]

/-- Witness for C7: a concrete food-only candidate day scored against a
food-only history; the `"transport"` column of the aligned table is zero. -/
theorem C7_column_alignment_witness :
    (reindexColumns (buildDailyFeatures (evalRecords
        (Entry.dict ⟨some 500, some "food", some "expense", some "2024-03-01"⟩)
        [Entry.dict ⟨some 20, some "food", some "expense", some "2024-02-20"⟩]))
      (buildDailyFeatures (trainRecords
        (Entry.dict ⟨some 500, some "food", some "expense", some "2024-03-01"⟩)
        [Entry.dict ⟨some 20, some "food", some "expense", some "2024-02-20"⟩])).cols).cols =
      (buildDailyFeatures (trainRecords
        (Entry.dict ⟨some 500, some "food", some "expense", some "2024-03-01"⟩)
        [Entry.dict ⟨some 20, some "food", some "expense", some "2024-02-20"⟩])).cols ∧
    (∀ row ∈ (reindexColumns (buildDailyFeatures (evalRecords
        (Entry.dict ⟨some 500, some "food", some "expense", some "2024-03-01"⟩)
        [Entry.dict ⟨some 20, some "food", some "expense", some "2024-02-20"⟩]))
      (buildDailyFeatures (trainRecords
        (Entry.dict ⟨some 500, some "food", some "expense", some "2024-03-01"⟩)
        [Entry.dict ⟨some 20, some "food", some "expense", some "2024-02-20"⟩])).cols).rows,
      cellVal (buildDailyFeatures (trainRecords
        (Entry.dict ⟨some 500, some "food", some "expense", some "2024-03-01"⟩)
        [Entry.dict ⟨some 20, some "food", some "expense", some "2024-02-20"⟩])).cols
        row.2 "transport" = 0) := by
  have h := C7_column_alignment
    (Entry.dict ⟨some 500, some "food", some "expense", some "2024-03-01"⟩)
    [Entry.dict ⟨some 20, some "food", some "expense", some "2024-02-20"⟩]
    (by decide) (by decide)
  refine ⟨h.1, h.2.2 "transport" (by decide) ?_⟩
  intro r hr hcontra
  have hev : evalRecords
      (Entry.dict ⟨some 500, some "food", some "expense", some "2024-03-01"⟩)
      [Entry.dict ⟨some 20, some "food", some "expense", some "2024-02-20"⟩] =
      [Entry.dict ⟨some 500, some "food", some "expense", some "2024-03-01"⟩] := by decide
  rw [hev] at hr
  simp only [List.mem_singleton] at hr
  injection hr with h2
  subst h2
  simp at hcontra

/-- **C8** fails as stated: the cleaning loop writes `r['type'] = 'expense'`
into the caller's dict, so a record that lacked a `type` key is mutated in
place by `build_daily_features`. -/
theorem C8_counterexample :
    recordsAfterBuild [Entry.dict ⟨some 20, some "food", none, some "2024-01-01"⟩] ≠
      [Entry.dict ⟨some 20, some "food", none, some "2024-01-01"⟩] := by decide

/-- **C8** (amended): after `build_daily_features`, the input sequence is
unchanged except that every dict record lacking a `type` key has gained
`type = "expense"`; in particular, when every dict record already carries a
`type` key, the input is returned entirely unchanged. -/
theorem C8_mutation_amended (records : List Entry) :
    recordsAfterBuild records = records.map (fun e =>
      match e with
      | Entry.nondict => Entry.nondict
      | Entry.dict r => Entry.dict { r with rtype := some (r.rtype.getD "expense") }) ∧
    ((∀ r : Rec, Entry.dict r ∈ records → r.rtype.isSome) →
      recordsAfterBuild records = records) := by
  have hpost : recordsAfterBuild records = (buildLoop records).1 := by
    unfold recordsAfterBuild buildDailyFeaturesRun
    cases h : (buildLoop records).2.isEmpty <;> simp [h]
  constructor
  · rw [hpost, buildLoop_fst]
  · intro H
    rw [hpost, buildLoop_fst]
    have : ∀ e ∈ records, (match e with
        | Entry.nondict => Entry.nondict
        | Entry.dict r => Entry.dict { r with rtype := some (r.rtype.getD "expense") }) = id e := by
      intro e he
      cases e with
      | nondict => rfl
      | dict r =>
        obtain ⟨t, ht⟩ := Option.isSome_iff_exists.1 (H r he)
        simp only [id_eq, Entry.dict.injEq, ht, Option.getD_some]
        rw [← ht]
    rw [List.map_congr_left this, List.map_id]

/-- Witness for the amended C8: a list whose records all carry a `type` key
comes back unchanged. -/
theorem C8_mutation_amended_witness :
    recordsAfterBuild
      [Entry.dict ⟨some 20, some "food", some "expense", some "2024-01-01"⟩, Entry.nondict] =
      [Entry.dict ⟨some 20, some "food", some "expense", some "2024-01-01"⟩, Entry.nondict] :=
  (C8_mutation_amended _).2 (by
    intro r hr
    simp only [List.mem_cons, List.not_mem_nil, or_false] at hr
    rcases hr with h | h
    · injection h with h2; subst h2; rfl
    · exact Entry.noConfusion h)

/-- **C9** (confirmed): `predict` raises `ValueError("Model not trained
yet")` when called before any successful `train`, and after a `train` call
it never fails for that reason. -/
theorem C9_predict_requires_training :
    (∀ df : DF, SpendingAnomalyDetector.init.predict df =
      Except.error "Model not trained yet") ∧
    (∀ (forest : DF → DF → List Int) (det : SpendingAnomalyDetector) (T X : DF),
      ((det.train forest T).predict X).isOk = true) :=
  ⟨fun _ => rfl, fun _ _ _ _ => rfl⟩

/- ### Claim theorems: budget recommender -/

theorem roundHalfEven_ge {x : Rat} {n : Int} (h : (n : Rat) ≤ x) :
    n ≤ roundHalfEven x := by
  have hf : n ≤ ⌊x⌋ := Int.le_floor.2 h
  simp only [roundHalfEven]
  split_ifs <;> omega

/-- The 100-floor of the recommender survives rounding. -/
theorem round2_max_ge (x : Rat) : (100 : Rat) ≤ round2 (max x 100) := by
  unfold round2
  have h2 : (100 : Rat) ≤ max x 100 := le_max_right _ _
  have h1 : ((10000 : Int) : Rat) ≤ 100 * max x 100 := by push_cast; nlinarith
  have h3 : (10000 : Int) ≤ roundHalfEven (100 * max x 100) := roundHalfEven_ge h1
  have h4 : ((10000 : Int) : Rat) ≤ (roundHalfEven (100 * max x 100) : Rat) := by
    exact_mod_cast h3
  push_cast at h4
  linarith

/-- **C5** (confirmed): with zero distinct months the recommender returns
the empty map; with a positive number of months below `N_CLUSTERS` it
returns the current budget map unchanged.  Both are plain returns, not
errors (the embedding is total). -/
theorem C5_recommender_fallback (kmFit : List (List Rat) → KM)
    (budgets : List (String × Rat)) (records : List Rec) :
    (aggregateMonthlySpending records = [] →
      recommendBudgets kmFit budgets records = []) ∧
    (aggregateMonthlySpending records ≠ [] →
      (aggregateMonthlySpending records).length < N_CLUSTERS →
      recommendBudgets kmFit budgets records = budgets) := by
  constructor
  · intro h
    unfold recommendBudgets
    simp [h]
  · intro hne hlt
    have hE : (aggregateMonthlySpending records).isEmpty = false := by
      cases hE : (aggregateMonthlySpending records).isEmpty
      · rfl
      · exact absurd (List.isEmpty_iff.1 hE) hne
    have hfit : fitClusters kmFit
        (buildFeatureMatrix budgets (aggregateMonthlySpending records)) = none := by
      unfold fitClusters
      rw [if_pos]
      unfold buildFeatureMatrix
      rw [List.length_map]
      exact hlt
    simp only [recommendBudgets, hE, Bool.false_eq_true, if_false, hfit]

/-- Witness for C5: no records at all give the empty map, and a single
month (below the cluster count 3) returns the budgets unchanged. -/
theorem C5_recommender_fallback_witness :
    recommendBudgets (fun _ => ⟨fun _ => 0, fun _ => []⟩)
      [("food", 50), ("transport", 60), ("entertainment", 70), ("shopping", 80), ("others", 90)]
      [] = [] ∧
    recommendBudgets (fun _ => ⟨fun _ => 0, fun _ => []⟩)
      [("food", 50), ("transport", 60), ("entertainment", 70), ("shopping", 80), ("others", 90)]
      [⟨some 10, some "food", some "expense", some "2024-01-05"⟩] =
      [("food", 50), ("transport", 60), ("entertainment", 70), ("shopping", 80), ("others", 90)] :=
  ⟨(C5_recommender_fallback _ _ _).1 rfl,
   (C5_recommender_fallback _ _ _).2 (by decide) (by decide)⟩

/-- **C6** fails as stated on its "for any inputs" part: with a single
month of data the recommender takes the fallback path and returns the
current budget map unchanged, so a current budget below 100 (here food at
50) is returned as a recommended value below 100.00. -/
theorem C6_counterexample :
    recommendBudgets (fun _ => ⟨fun _ => 0, fun _ => []⟩)
      [("food", 50), ("transport", 60), ("entertainment", 70), ("shopping", 80), ("others", 90)]
      [⟨some 10, some "food", some "expense", some "2024-01-05"⟩] =
      [("food", 50), ("transport", 60), ("entertainment", 70), ("shopping", 80), ("others", 90)] ∧
    ¬ (∀ p ∈ recommendBudgets (fun _ => ⟨fun _ => 0, fun _ => []⟩)
        [("food", 50), ("transport", 60), ("entertainment", 70), ("shopping", 80), ("others", 90)]
        [⟨some 10, some "food", some "expense", some "2024-01-05"⟩], (100 : Rat) ≤ p.2) := by
  have hE : (aggregateMonthlySpending
      [(⟨some 10, some "food", some "expense", some "2024-01-05"⟩ : Rec)]).isEmpty
      = false := by decide
  have hlt : (buildFeatureMatrix
      [("food", 50), ("transport", 60), ("entertainment", 70), ("shopping", 80), ("others", 90)]
      (aggregateMonthlySpending
        [(⟨some 10, some "food", some "expense", some "2024-01-05"⟩ : Rec)])).length
      < N_CLUSTERS := by
    simp only [buildFeatureMatrix, List.length_map]
    decide
  have hres : recommendBudgets (fun _ => ⟨fun _ => 0, fun _ => []⟩)
      [("food", 50), ("transport", 60), ("entertainment", 70), ("shopping", 80), ("others", 90)]
      [⟨some 10, some "food", some "expense", some "2024-01-05"⟩] =
      [("food", 50), ("transport", 60), ("entertainment", 70), ("shopping", 80), ("others", 90)] := by
    simp only [recommendBudgets, hE, Bool.false_eq_true, if_false, fitClusters, if_pos hlt]
  refine ⟨hres, ?_⟩
  intro hall
  have := hall ("food", 50) (by rw [hres]; exact List.mem_cons_self _ _)
  norm_num at this

/-- **C6** (amended): whenever the clustering path is reached (at least
`N_CLUSTERS` distinct months), each category's recommendation equals
`round2 (max (0.7*current + 0.3*(center[category]*current)) 100)`, and every
value so recommended is at least 100.00.  The fallback paths (fewer months)
return the current budgets unchanged, which may lie below 100. -/
theorem C6_blending_formula (kmFit : List (List Rat) → KM)
    (budgets : List (String × Rat)) (records : List Rec)
    (h3 : N_CLUSTERS ≤ (aggregateMonthlySpending records).length) :
    (∀ i cat, BUDGET_CATEGORIES.get? i = some cat →
      (recommendBudgets kmFit budgets records).lookup cat =
        some (round2 (max
          ((7 : Rat)/10 * (budgets.lookup cat).getD 0 +
            (3 : Rat)/10 *
              ((chosenCenter kmFit budgets records).getD i 0 *
                (budgets.lookup cat).getD 0))
          100))) ∧
    (∀ p ∈ recommendBudgets kmFit budgets records, (100 : Rat) ≤ p.2) := by
  have hne : aggregateMonthlySpending records ≠ [] := by
    intro h
    rw [h] at h3
    simp [N_CLUSTERS] at h3
  have hE : (aggregateMonthlySpending records).isEmpty = false := by
    cases hE : (aggregateMonthlySpending records).isEmpty
    · rfl
    · exact absurd (List.isEmpty_iff.1 hE) hne
  have hfit : fitClusters kmFit
      (buildFeatureMatrix budgets (aggregateMonthlySpending records)) =
      some (kmFit (buildFeatureMatrix budgets (aggregateMonthlySpending records))) := by
    unfold fitClusters
    rw [if_neg]
    rw [buildFeatureMatrix, List.length_map, Nat.not_lt]
    exact h3
  have hres : recommendBudgets kmFit budgets records =
      BUDGET_CATEGORIES.enum.map (fun p =>
        (p.2, round2 (max
          ((7 : Rat)/10 * (budgets.lookup p.2).getD 0 +
            (3 : Rat)/10 *
              ((chosenCenter kmFit budgets records).getD p.1 0 *
                (budgets.lookup p.2).getD 0))
          100))) := by
    simp only [recommendBudgets, hE, Bool.false_eq_true, if_false, hfit, chosenCenter]
  constructor
  · intro i cat hget
    have hi : i < 5 := by
      by_contra hge
      rw [List.get?_eq_none.2 (by simpa [BUDGET_CATEGORIES] using Nat.le_of_not_lt hge)] at hget
      exact Option.noConfusion hget
    rw [hres]
    interval_cases i <;>
      (simp only [BUDGET_CATEGORIES] at hget ⊢
       injection hget with hcat
       subst hcat
       simp [List.enum, List.enumFrom, List.lookup])
  · intro p hp
    rw [hres] at hp
    obtain ⟨q, hq, rfl⟩ := List.mem_map.1 hp
    exact round2_max_ge _

/-- Witness for the amended C6: three months of data, budgets of 1000, and a
cluster center ratio of 0.5 give the spec's example recommendation 850.00,
with every value at least 100. -/
theorem C6_blending_formula_witness :
    N_CLUSTERS ≤ (aggregateMonthlySpending
      [⟨some 10, some "food", some "expense", some "2024-01-05"⟩,
       ⟨some 10, some "food", some "expense", some "2024-02-05"⟩,
       ⟨some 10, some "food", some "expense", some "2024-03-05"⟩]).length ∧
    (recommendBudgets (fun _ => ⟨fun _ => 0, fun _ => [1/2, 1/2, 1/2, 1/2, 1/2]⟩)
      [("food", 1000), ("transport", 1000), ("entertainment", 1000),
       ("shopping", 1000), ("others", 1000)]
      [⟨some 10, some "food", some "expense", some "2024-01-05"⟩,
       ⟨some 10, some "food", some "expense", some "2024-02-05"⟩,
       ⟨some 10, some "food", some "expense", some "2024-03-05"⟩]).lookup "food" =
      some 850 ∧
    (∀ p ∈ recommendBudgets (fun _ => ⟨fun _ => 0, fun _ => [1/2, 1/2, 1/2, 1/2, 1/2]⟩)
      [("food", 1000), ("transport", 1000), ("entertainment", 1000),
       ("shopping", 1000), ("others", 1000)]
      [⟨some 10, some "food", some "expense", some "2024-01-05"⟩,
       ⟨some 10, some "food", some "expense", some "2024-02-05"⟩,
       ⟨some 10, some "food", some "expense", some "2024-03-05"⟩], (100 : Rat) ≤ p.2) := by
  have h := C6_blending_formula
    (fun _ => ⟨fun _ => 0, fun _ => [1/2, 1/2, 1/2, 1/2, 1/2]⟩)
    [("food", 1000), ("transport", 1000), ("entertainment", 1000),
     ("shopping", 1000), ("others", 1000)]
    [⟨some 10, some "food", some "expense", some "2024-01-05"⟩,
     ⟨some 10, some "food", some "expense", some "2024-02-05"⟩,
     ⟨some 10, some "food", some "expense", some "2024-03-05"⟩]
    (by decide)
  refine ⟨by decide, ?_, h.2⟩
  rw [h.1 0 "food" rfl]
  have hc : chosenCenter (fun _ => ⟨fun _ => 0, fun _ => [1/2, 1/2, 1/2, 1/2, 1/2]⟩)
      [("food", 1000), ("transport", 1000), ("entertainment", 1000),
       ("shopping", 1000), ("others", 1000)]
      [⟨some 10, some "food", some "expense", some "2024-01-05"⟩,
       ⟨some 10, some "food", some "expense", some "2024-02-05"⟩,
       ⟨some 10, some "food", some "expense", some "2024-03-05"⟩] =
      [1/2, 1/2, 1/2, 1/2, 1/2] := rfl
  rw [hc]
  have hmax : max ((7 : Rat)/10 * (([("food", (1000 : Rat)), ("transport", 1000),
      ("entertainment", 1000), ("shopping", 1000), ("others", 1000)].lookup "food").getD 0) +
      (3 : Rat)/10 * (([(1 : Rat)/2, 1/2, 1/2, 1/2, 1/2].getD 0 0) *
        (([("food", (1000 : Rat)), ("transport", 1000), ("entertainment", 1000),
          ("shopping", 1000), ("others", 1000)].lookup "food").getD 0))) 100 = 850 := by
    rw [show ([("food", (1000 : Rat)), ("transport", 1000), ("entertainment", 1000),
      ("shopping", 1000), ("others", 1000)].lookup "food") = some 1000 from rfl]
    norm_num
  rw [hmax]
  norm_num [round2, roundHalfEven]

/- ### Lemmas for the monthly aggregation (claim C10) -/

theorem zeroSpending_keys : zeroSpending.map Prod.fst = BUDGET_CATEGORIES := by decide

theorem lookup_map_zero (l : List String) (c : String) :
    ((l.map (fun k => (k, (0 : Rat)))).lookup c).getD 0 = 0 := by
  induction l with
  | nil => rfl
  | cons k l ih =>
    by_cases h : c == k <;> simp [List.lookup, h, ih]

theorem updSp_keys (r : Rec) (sp : List (String × Rat)) :
    (updSp r sp).map Prod.fst = sp.map Prod.fst := by
  induction sp with
  | nil => rfl
  | cons p sp ih =>
    simp only [updSp, List.map_cons] at *
    split <;> simp [ih]

theorem lookup_updSp (r : Rec) (sp : List (String × Rat)) (c : String) :
    (updSp r sp).lookup c =
      (sp.lookup c).map (fun v => if r.category = some c then v + r.amount.getD 0 else v) := by
  induction sp with
  | nil => rfl
  | cons p sp ih =>
    obtain ⟨k, v⟩ := p
    simp only [updSp, List.map_cons]
    by_cases hck : c == k
    · have hk : c = k := by simpa using hck
      subst hk
      by_cases hcat : some c = r.category
      · rw [if_pos hcat]
        have hrc : r.category = some c := hcat.symm
        simp [List.lookup, hrc]
      · rw [if_neg hcat]
        have hrc : ¬ r.category = some c := fun h => hcat h.symm
        simp [List.lookup, hrc]
    · by_cases hcat : some k = r.category
      · rw [if_pos hcat]
        simpa [List.lookup, hck] using ih
      · rw [if_neg hcat]
        simpa [List.lookup, hck] using ih

theorem lookup_cons {α : Type} (k : String) (v : α) (l : List (String × α)) (c : String) :
    (((k, v) :: l).lookup c) = if c = k then some v else l.lookup c := by
  by_cases h : c = k
  · subst h
    simp [List.lookup]
  · have hb : (c == k) = false := by simpa using h
    simp [List.lookup, hb, h]

theorem lookup_none_iff {α : Type} (l : List (String × α)) (c : String) :
    l.lookup c = none ↔ c ∉ l.map Prod.fst := by
  induction l with
  | nil => simp
  | cons p l ih =>
    obtain ⟨k, v⟩ := p
    rw [lookup_cons]
    by_cases h : c = k
    · subst h
      simp
    · simp [h, ih, eq_comm]

theorem lookup_updSp_getD (r : Rec) (sp : List (String × Rat)) (c : String)
    (hk : sp.map Prod.fst = BUDGET_CATEGORIES) :
    ((updSp r sp).lookup c).getD 0 = (sp.lookup c).getD 0 +
      (if r.category = some c ∧ c ∈ BUDGET_CATEGORIES then r.amount.getD 0 else 0) := by
  rw [lookup_updSp]
  cases hl : sp.lookup c with
  | none =>
    have hmem : c ∉ BUDGET_CATEGORIES := by
      rw [← hk]
      exact (lookup_none_iff sp c).1 hl
    simp [hmem]
  | some v =>
    have hmem : c ∈ BUDGET_CATEGORIES := by
      rw [← hk]
      by_contra hno
      rw [← lookup_none_iff sp c] at hno
      rw [hl] at hno
      exact Option.noConfusion hno
    by_cases hcat : r.category = some c
    · simp [hcat, hmem]
    · simp [hcat]

theorem mTotal_cons (e : String × List (String × Rat))
    (st : List (String × List (String × Rat))) (m c : String) :
    mTotal (e :: st) m c =
      (if e.1 == m then ((e.2.lookup c).getD 0 : Rat) else 0) + mTotal st m c := by
  by_cases h : e.1 == m <;> simp [mTotal, List.filter_cons, h]

theorem mTotal_append (st1 st2 : List (String × List (String × Rat))) (m c : String) :
    mTotal (st1 ++ st2) m c = mTotal st1 m c + mTotal st2 m c := by
  simp [mTotal, List.filter_append]

/-- Updating the month-`mr` spending dict changes exactly the `(mr, c)`
totals, by the record's amount when its category is a fixed key. -/
theorem mTotal_map_upd (st : List (String × List (String × Rat))) (r : Rec)
    (mr m c : String)
    (hkeys : ∀ e ∈ st, e.2.map Prod.fst = BUDGET_CATEGORIES)
    (hnd : (st.map Prod.fst).Nodup) :
    mTotal (st.map (fun e => if e.1 == mr then (e.1, updSp r e.2) else e)) m c =
      mTotal st m c +
        (if mr = m ∧ m ∈ st.map Prod.fst ∧ r.category = some c ∧ c ∈ BUDGET_CATEGORIES
         then r.amount.getD 0 else 0) := by
  induction st with
  | nil => simp [mTotal]
  | cons e st ih =>
    have hkeys' : ∀ x ∈ st, x.2.map Prod.fst = BUDGET_CATEGORIES :=
      fun x hx => hkeys x (List.mem_cons_of_mem _ hx)
    rw [List.map_cons] at hnd
    have hnd0 := List.nodup_cons.1 hnd
    have hih := ih hkeys' hnd0.2
    by_cases hm : e.1 == mr
    · have hem : e.1 = mr := by simpa using hm
      rw [List.map_cons, if_pos hm, mTotal_cons, mTotal_cons, hih,
        lookup_updSp_getD r e.2 c (hkeys e (List.mem_cons_self _ _))]
      by_cases hem2 : e.1 == m
      · have he_m : e.1 = m := by simpa using hem2
        have hmrm : mr = m := hem ▸ he_m
        have htail : m ∉ st.map Prod.fst := he_m ▸ hnd0.1
        rw [if_pos hem2, if_pos hem2]
        simp only [htail, hmrm, List.map_cons, List.mem_cons, he_m, true_and, false_and,
          and_false, if_false, true_or, or_false]
        by_cases hcat : r.category = some c ∧ c ∈ BUDGET_CATEGORIES
        · simp only [hcat, and_true, if_true]
          ring
        · simp only [hcat, and_false, if_false]
          ring
      · have hne_m : ¬ e.1 = m := by simpa using hem2
        have hmrm : ¬ mr = m := fun h => hne_m (hem.trans h)
        rw [if_neg hem2, if_neg hem2]
        simp only [hmrm, false_and, if_false]
        ring
    · have hne : ¬ e.1 = mr := by simpa using hm
      rw [List.map_cons, if_neg hm, mTotal_cons, mTotal_cons, hih]
      by_cases hmrm : mr = m
      · subst hmrm
        have hmem : (mr ∈ (e :: st).map Prod.fst) = (mr ∈ st.map Prod.fst) := by
          simp only [List.map_cons, List.mem_cons]
          apply propext
          constructor
          · rintro (h | h)
            · exact absurd h.symm hne
            · exact h
          · exact Or.inr
        simp only [hmem]
        ring
      · simp only [hmrm, false_and, if_false]
        ring

theorem goodState_aggStep (st : List (String × List (String × Rat))) (r : Rec)
    (h : goodState st) : goodState (aggStep st r) := by
  obtain ⟨hkeys, hnd⟩ := h
  unfold aggStep
  cases hd : r.date with
  | none => exact ⟨hkeys, hnd⟩
  | some ds =>
    dsimp only
    by_cases hlen : ds.length < 7
    · simpa [hlen, goodState] using And.intro hkeys hnd
    · rw [if_neg hlen]
      by_cases hty : r.rtype ≠ some "expense"
      · simpa [hty, goodState] using And.intro hkeys hnd
      · rw [if_neg hty]
        set m := (ds.toList.take 7).asString with hm
        have hstep : ∀ st1 : List (String × List (String × Rat)),
            (∀ e ∈ st1, e.2.map Prod.fst = BUDGET_CATEGORIES) →
            (st1.map Prod.fst).Nodup →
            goodState (st1.map (fun e => if e.1 == m then (e.1, updSp r e.2) else e)) := by
          intro st1 hk1 hn1
          constructor
          · intro e he
            obtain ⟨x, hx, hxe⟩ := List.mem_map.1 he
            by_cases hxm : x.1 == m
            · rw [if_pos hxm] at hxe
              rw [← hxe]
              simpa [updSp_keys] using hk1 x hx
            · rw [if_neg hxm] at hxe
              exact hxe ▸ hk1 x hx
          · have : (st1.map (fun e => if e.1 == m then (e.1, updSp r e.2) else e)).map Prod.fst
                = st1.map Prod.fst := by
              rw [List.map_map]
              apply List.map_congr_left
              intro x hx
              simp only [Function.comp_apply]
              split <;> rfl
            rw [this]
            exact hn1
        by_cases hany : st.any (fun e => e.1 == m)
        · rw [if_pos hany]
          exact hstep st hkeys hnd
        · rw [if_neg hany]
          have hanyf : st.any (fun e => e.1 == m) = false := Bool.eq_false_iff.2 hany
          have hnm : m ∉ st.map Prod.fst := by
            intro hmem
            obtain ⟨e, he, hee⟩ := List.mem_map.1 hmem
            exact (List.any_eq_false.1 hanyf) e he (by simpa using hee)
          apply hstep
          · intro e he
            rcases List.mem_append.1 he with h1 | h2
            · exact hkeys e h1
            · simp only [List.mem_singleton] at h2
              rw [h2]
              exact zeroSpending_keys
          · rw [List.map_append]
            simp only [List.map_cons, List.map_nil]
            rw [List.nodup_append]
            refine ⟨hnd, List.nodup_singleton _, ?_⟩
            intro x hx
            simp only [List.mem_singleton]
            intro hxm
            exact hnm (hxm ▸ hx)

/-- One aggregation step adds exactly `singleContrib` to every monthly
total. -/
theorem aggStep_mTotal (st : List (String × List (String × Rat))) (r : Rec)
    (hg : goodState st) (m c : String) :
    mTotal (aggStep st r) m c = mTotal st m c + singleContrib r m c := by
  obtain ⟨hkeys, hnd⟩ := hg
  unfold aggStep singleContrib
  cases hd : r.date with
  | none => simp
  | some ds =>
    dsimp only
    by_cases hlen : ds.length < 7
    · simp [hlen]
    · rw [if_neg hlen, if_neg hlen]
      by_cases hty : r.rtype ≠ some "expense"
      · have hty2 : ¬ ((ds.toList.take 7).asString = m ∧ r.rtype = some "expense" ∧
            r.category = some c ∧ c ∈ BUDGET_CATEGORIES) := by
          rintro ⟨-, h2, -⟩
          exact hty h2
        rw [if_pos hty, if_neg hty2]
        ring
      · rw [if_neg hty]
        push_neg at hty
        set mr := (ds.toList.take 7).asString with hmr
        by_cases hany : st.any (fun e => e.1 == mr)
        · rw [if_pos hany, mTotal_map_upd st r mr m c hkeys hnd]
          congr 1
          have hmem : mr ∈ st.map Prod.fst := by
            obtain ⟨e, he, hee⟩ := List.any_eq_true.1 hany
            exact List.mem_map.2 ⟨e, he, by simpa using hee⟩
          by_cases hmm : mr = m
          · subst hmm
            simp [hmem, hty]
          · simp [hmm]
        · rw [if_neg hany]
          have hanyf : st.any (fun e => e.1 == mr) = false := Bool.eq_false_iff.2 hany
          have hnm : mr ∉ st.map Prod.fst := by
            intro hmemm
            obtain ⟨e, he, hee⟩ := List.mem_map.1 hmemm
            exact (List.any_eq_false.1 hanyf) e he (by simpa using hee)
          have hkeys2 : ∀ e ∈ st ++ [(mr, zeroSpending)],
              e.2.map Prod.fst = BUDGET_CATEGORIES := by
            intro e he
            rcases List.mem_append.1 he with h1 | h2
            · exact hkeys e h1
            · simp only [List.mem_singleton] at h2
              rw [h2]
              exact zeroSpending_keys
          have hnd2 : ((st ++ [(mr, zeroSpending)]).map Prod.fst).Nodup := by
            rw [List.map_append]
            simp only [List.map_cons, List.map_nil]
            rw [List.nodup_append]
            refine ⟨hnd, List.nodup_singleton _, ?_⟩
            intro x hx
            simp only [List.mem_singleton]
            intro hxm
            exact hnm (hxm ▸ hx)
          rw [mTotal_map_upd _ r mr m c hkeys2 hnd2, mTotal_append]
          have hz : mTotal [(mr, zeroSpending)] m c = 0 := by
            rw [mTotal_cons]
            simp [mTotal, zeroSpending, lookup_map_zero]
          rw [hz]
          have hkeysapp : ((st ++ [(mr, zeroSpending)]).map Prod.fst)
              = st.map Prod.fst ++ [mr] := by simp
          simp only [hkeysapp, List.mem_append, List.mem_singleton]
          by_cases hmm : mr = m
          · subst hmm
            simp [hty]
          · simp [hmm]

theorem goodState_foldl (rs : List Rec) (st : List (String × List (String × Rat)))
    (h : goodState st) : goodState (rs.foldl aggStep st) := by
  induction rs generalizing st with
  | nil => exact h
  | cons r rs ih => exact ih _ (goodState_aggStep st r h)

theorem foldl_aggStep_mTotal (rs : List Rec) (st : List (String × List (String × Rat)))
    (h : goodState st) (m c : String) :
    mTotal (rs.foldl aggStep st) m c =
      mTotal st m c + (rs.map (fun r => singleContrib r m c)).sum := by
  induction rs generalizing st with
  | nil => simp
  | cons r rs ih =>
    rw [List.foldl_cons, ih _ (goodState_aggStep st r h), aggStep_mTotal st r h]
    simp [add_assoc]

theorem insertMonth_perm (x : String × List (String × Rat))
    (l : List (String × List (String × Rat))) : List.Perm (insertMonth x l) (x :: l) := by
  induction l with
  | nil => exact List.Perm.refl _
  | cons y ys ih =>
    unfold insertMonth
    by_cases h : monthLe x.1 y.1
    · rw [if_pos h]
    · rw [if_neg h]
      exact (ih.cons y).trans (List.Perm.swap _ _ _)

theorem sortMonths_perm (l : List (String × List (String × Rat))) :
    List.Perm (l.foldr insertMonth []) l := by
  induction l with
  | nil => exact List.Perm.refl _
  | cons x xs ih =>
    exact (insertMonth_perm x (xs.foldr insertMonth [])).trans (ih.cons x)

theorem mTotal_perm {st1 st2 : List (String × List (String × Rat))}
    (h : List.Perm st1 st2) (m c : String) : mTotal st1 m c = mTotal st2 m c := by
  unfold mTotal
  exact ((h.filter _).map _).sum_eq

/-- Closed form for the monthly totals: every `(month, category)` total of
`aggregate_monthly_spending` is the sum of `singleContrib` over the input
records. -/
theorem agg_mTotal (records : List Rec) (m c : String) :
    mTotal (aggregateMonthlySpending records) m c =
      (records.map (fun r => singleContrib r m c)).sum := by
  unfold aggregateMonthlySpending
  rw [mTotal_perm (sortMonths_perm _) m c,
    foldl_aggStep_mTotal records [] ⟨by simp, by simp⟩ m c]
  simp [mTotal]

/-- **C10** (confirmed): every monthly spending map has exactly the fixed
category set as keys, and an expense record with an off-vocabulary category
contributes to no monthly total, wherever it sits in the input. -/
theorem C10_offvocab_dropped :
    (∀ (records : List Rec) (e : String × List (String × Rat)),
      e ∈ aggregateMonthlySpending records → e.2.map Prod.fst = BUDGET_CATEGORIES) ∧
    (∀ (rs1 rs2 : List Rec) (r : Rec) (cstr : String),
      r.category = some cstr → cstr ∉ BUDGET_CATEGORIES →
      ∀ m c, mTotal (aggregateMonthlySpending (rs1 ++ r :: rs2)) m c =
        mTotal (aggregateMonthlySpending (rs1 ++ rs2)) m c) := by
  constructor
  · intro records e he
    have hperm := sortMonths_perm (records.foldl aggStep [])
    have hmem : e ∈ records.foldl aggStep [] :=
      hperm.mem_iff.1 (by simpa [aggregateMonthlySpending] using he)
    exact (goodState_foldl records [] ⟨by simp, by simp⟩).1 e hmem
  · intro rs1 rs2 r cstr hcat hno m c
    have hzero : singleContrib r m c = 0 := by
      unfold singleContrib
      cases hd : r.date with
      | none => rfl
      | some ds =>
        dsimp only
        by_cases hlen : ds.length < 7
        · simp [hlen]
        · have hcond : ¬ ((ds.toList.take 7).asString = m ∧ r.rtype = some "expense" ∧
              r.category = some c ∧ c ∈ BUDGET_CATEGORIES) := by
            rintro ⟨-, -, hc2, hcm⟩
            rw [hcat] at hc2
            injection hc2 with hc3
            exact hno (hc3 ▸ hcm)
          rw [if_neg hlen, if_neg hcond]
    rw [agg_mTotal, agg_mTotal]
    simp [hzero]

/-- Witness for C10 at concrete inputs: an off-vocabulary `"weird"` expense
leaves the January food total unchanged, and the monthly map's keys are the
fixed categories. -/
theorem C10_offvocab_dropped_witness :
    ("weird" ∉ BUDGET_CATEGORIES) ∧
    (∀ m c, mTotal (aggregateMonthlySpending
        [⟨some 10, some "food", some "expense", some "2024-01-05"⟩,
         ⟨some 99, some "weird", some "expense", some "2024-01-06"⟩]) m c =
      mTotal (aggregateMonthlySpending
        [⟨some 10, some "food", some "expense", some "2024-01-05"⟩]) m c) :=
  ⟨by decide,
   C10_offvocab_dropped.2
     [⟨some 10, some "food", some "expense", some "2024-01-05"⟩] []
     ⟨some 99, some "weird", some "expense", some "2024-01-06"⟩ "weird" rfl (by decide)⟩
